import Mathlib

/-
Verification development for the TransactionViewer repository.

The development shallowly embeds the two core modules named by the
specification:

* src/utils/blockchainUtils.js : the multicall batch engine
  (makeMulticall, formatResult, formatTokenBalance), and
* src/services/coingeckoService.js : the rate limited metadata queue
  (processApiQueue, parseTokenData) with its chain to platform map.

JavaScript dynamic values are modelled by the two level inductive type
JsVal (primitives and flat arrays of primitives); machine independent
externals (BigInt or BigNumber decimal printing, padStart, JSON
serialisation of the integer payloads that occur here) are modelled by
explicit executable Lean functions.  Network effects (the aggregator
contract, the ABI coder, fetch) are parameters: oracles passed to the
embedded functions, so that theorems quantify over every possible
behaviour of the outside world.
-/

/-! ### Decimal digit strings

Model of the decimal printing performed by the JavaScript builtins
BigInt.prototype.toString and Number.prototype.toString on integers.
The recursion is fuelled so that every definition is structural and
kernel reducible. -/

def digitChar : Nat → Char
  | 0 => '0' | 1 => '1' | 2 => '2' | 3 => '3' | 4 => '4'
  | 5 => '5' | 6 => '6' | 7 => '7' | 8 => '8' | _ => '9'

def natReprGo : Nat → Nat → List Char
  | 0, _ => []
  | fuel + 1, n =>
    if n < 10 then [digitChar n]
    else natReprGo fuel (n / 10) ++ [digitChar (n % 10)]

def natRepr10 (n : Nat) : String := ⟨natReprGo (n + 1) n⟩

def intRepr (n : Int) : String :=
  if n < 0 then "-" ++ natRepr10 n.natAbs else natRepr10 n.natAbs

/-- Numeric value of a list of decimal digit characters (most significant
first), the reading direction of JavaScript number parsing. -/
def listVal (l : List Char) : Nat :=
  l.foldl (fun a c => 10 * a + (c.toNat - 48)) 0

def allDigitsL (l : List Char) : Bool := l.all Char.isDigit

/-- Model of the JavaScript BigInt(string) constructor restricted to the
strings that reach it in this code base: the empty string parses to zero
(as in JavaScript) and otherwise only plain unsigned decimal digit
strings are accepted; anything else throws, modelled by none. -/
def parseBigInt? (s : String) : Option Nat :=
  if s.data.isEmpty then some 0
  else if allDigitsL s.data then some (listVal s.data) else none

/-- Model of String.prototype.padStart with the pad character 0, as used
on the fractional digit group. -/
def padStartZeros (s : String) (k : Nat) : String :=
  ⟨List.replicate (k - s.data.length) '0' ++ s.data⟩

/-- Model of the replace of the trailing zero regular expression on the
fractional digit group. -/
def dropTrailingZeros (s : String) : String :=
  ⟨(s.data.reverse.dropWhile (fun c => c == '0')).reverse⟩

/-- Model of the replace that strips quote and whitespace characters
(the common whitespace class members) from the balance string. -/
def stripQuotesWs (s : String) : String :=
  ⟨s.data.filter (fun c =>
    !(c == '"' || c == ' ' || c == '\t' || c == '\n' || c == '\r'))⟩

/-- Model of str.startsWith with a one character argument. -/
def startsWithCh (s : String) (c : Char) : Bool := s.data.head? == some c

/-- Model of str.endsWith with a one character argument. -/
def endsWithCh (s : String) (c : Char) : Bool := s.data.getLast? == some c

def hexDigitVal? (c : Char) : Option Nat :=
  if c.isDigit then some (c.toNat - 48)
  else if 'a' ≤ c ∧ c ≤ 'f' then some (c.toNat - 87)
  else if 'A' ≤ c ∧ c ≤ 'F' then some (c.toNat - 55)
  else none

/-- Model of BigNumber.from on the hex field of a serialised BigNumber:
a 0x prefixed hexadecimal string; anything else throws (none). -/
def hexVal? (s : String) : Option Nat :=
  match s.data with
  | '0' :: 'x' :: rest =>
    if rest.isEmpty then none
    else rest.foldl (fun acc c =>
      match acc, hexDigitVal? c with
      | some a, some d => some (16 * a + d)
      | _, _ => none) (some 0)
  | _ => none

/-! ### JavaScript values

Primitives plus flat arrays of primitives: the value shapes that flow
through the result pipeline (multicall results are arrays of decoded
scalars).  Objects are modelled with the string their inherited
toString produces together with an optional hex field (serialised
BigNumber form).  Numbers are restricted to integers since the pipeline
only carries integer quantities. -/

inductive JsPrim where
  | pnull
  | pundef
  | pnum (n : Int)
  | pbig (n : Int)
  | pstr (s : String)
  | pobj (toStr : String) (hex : Option String)
deriving DecidableEq

inductive JsVal where
  | prim (p : JsPrim)
  | varr (l : List JsPrim)
deriving DecidableEq

/-- Model of String(value) on a primitive. -/
def jsPrimToString : JsPrim → String
  | .pnull => "null"
  | .pundef => "undefined"
  | .pnum n => intRepr n
  | .pbig n => intRepr n
  | .pstr s => s
  | .pobj ts _ => ts

/-- Model of String(value): arrays join their elements with commas,
null and undefined elements becoming empty, as Array.prototype.toString
does. -/
def jsToString : JsVal → String
  | .prim p => jsPrimToString p
  | .varr l => String.intercalate "," (l.map (fun p =>
      match p with
      | .pnull => ""
      | .pundef => ""
      | q => jsPrimToString q))

/-- JavaScript truthiness on the modelled values. -/
def jsFalsy : JsVal → Bool
  | .prim .pnull => true
  | .prim .pundef => true
  | .prim (.pnum n) => n == 0
  | .prim (.pbig n) => n == 0
  | .prim (.pstr s) => s == ""
  | .prim (.pobj _ _) => false
  | .varr _ => false

/-- The value of balance OR the string 0, as used by the catch clause
String of balance or else the character zero. -/
def jsOrZero (b : JsVal) : JsVal :=
  if jsFalsy b then JsVal.prim (JsPrim.pstr "0") else b

/-- Model of the pattern value OR default on an optional string, which
in JavaScript also replaces the empty string since it is falsy. -/
def jsStrOr (v : Option String) (d : String) : String :=
  match v with
  | none => d
  | some s => if s = "" then d else s

def jsTruthyOptStr (v : Option String) : Bool :=
  match v with
  | none => false
  | some s => s ≠ ""

/-! ### formatResult (blockchainUtils.js lines 24 to 68)

Real BigNumber instances are modelled by the pbig constructor, so the
isBigNumber branch of line 28 coincides with the bigint branch of
line 25.  JSON.stringify with the bigint converting replacer and an
indent of two is modelled for the payloads that occur here: arrays of
primitives.  The serialised form of an opaque object without a hex
field is not modelled beyond an empty brace pair. -/

def jsonEscape (s : String) : String :=
  ⟨s.data.foldr (fun c acc =>
    if c = '"' then '\\' :: '"' :: acc
    else if c = '\\' then '\\' :: '\\' :: acc
    else c :: acc) []⟩

def jsonElem : JsPrim → String
  | .pnull => "null"
  | .pundef => "null"
  | .pnum n => intRepr n
  | .pbig n => "\"" ++ intRepr n ++ "\""
  | .pstr s => "\"" ++ jsonEscape s ++ "\""
  | .pobj _ hex =>
    match hex with
    | some h => "\"" ++ (match hexVal? h with
        | some m => natRepr10 m
        | none => h) ++ "\""
    | none => "\x7b\x7d"

def jsonStringifyArr (l : List JsPrim) : String :=
  match l with
  | [] => "[]"
  | _ => "[\n" ++ String.intercalate ",\n" (l.map (fun p => "  " ++ jsonElem p)) ++ "\n]"

/-- Embedding of formatResult.  The environment has ethers loaded, as
the application guarantees before any of these helpers run. -/
def formatResult : JsVal → String
  | .prim (.pbig n) => intRepr n
  | .prim (.pobj _ hex) =>
    match hex with
    | some h =>
      match hexVal? h with
      | some m => natRepr10 m
      | none => h
    | none => "\x7b\x7d"
  | .varr l => jsonStringifyArr l
  | .prim p => jsPrimToString p

/-! ### formatTokenBalance (blockchainUtils.js lines 307 to 388)

The function takes the dynamic balance value and a decimals count.  Its
numeric tail has two paths: when ethers is loaded it goes through
BigNumber.from, formatUnits and parseFloat; without ethers it uses the
exact BigInt fallback.  The parseFloat composite is a binary floating
point computation and is therefore kept abstract: an oracle of type
String to Nat to possibly throwing String.  Passing none selects the
BigInt fallback path (lines 361 to 381). -/

/-- Model of JSON.parse restricted to the payloads that reach it here:
after the quote and whitespace strip of line 333 the only parsable
bracketed forms left are arrays of unsigned integer literals. -/
def jsonParseIntArr? (s : String) : Option (List JsPrim) :=
  match s.data with
  | '[' :: rest =>
    match rest.getLast? with
    | some ']' =>
      let inner := rest.dropLast
      if inner.isEmpty then some []
      else
        let parts := inner.splitOn ','
        if parts.all (fun p => !p.isEmpty && allDigitsL p) then
          some (parts.map (fun p => JsPrim.pnum (listVal p)))
        else none
    | _ => none
  | _ => none

/-- Model of the first match search of the bracketed digit run regular
expression used as the manual fallback when JSON parsing fails. -/
def extractBracketNum? : List Char → Option (List Char)
  | [] => none
  | c :: rest =>
    if c = '[' then
      let digs := rest.takeWhile Char.isDigit
      if !digs.isEmpty && (rest.drop digs.length).head? == some ']' then some digs
      else extractBracketNum? rest
    else extractBracketNum? rest

/-- Embedding of the BigInt fallback arithmetic of lines 364 to 376:
integer division and modulus by the power of ten, left pad of the
fractional group, strip of its trailing zeros. -/
def bigIntFormat (n : Nat) (decimals : Nat) : String :=
  let divisor := 10 ^ decimals
  let wholePart := n / divisor
  let fractionalPart := n % divisor
  if fractionalPart = 0 then natRepr10 wholePart
  else
    let fractionalStr := padStartZeros (natRepr10 fractionalPart) decimals
    let trimmedFractional := dropTrailingZeros fractionalStr
    if trimmedFractional = "" then natRepr10 wholePart
    else natRepr10 wholePart ++ "." ++ trimmedFractional

/-- The abstract ethers numeric path: BigNumber.from then formatUnits
then parseFloat and toString; it may throw (BigNumber.from does on a
non numeric string), which the error side models. -/
def EthersFloatFmt : Type := String → Nat → Except String String

/-- The body of formatTokenBalance inside the outer try: an error value
is an exception that the outer catch of line 383 will receive.  Inner
try blocks (JSON parse, BigInt construction) are already resolved here,
exactly as in the source. -/
def formatTokenBalanceBody (eth : Option EthersFloatFmt) (balance : JsVal)
    (decimals : Nat) : Except String String :=
  -- line 309: falsy balance or the string zero
  if jsFalsy balance || balance == JsVal.prim (JsPrim.pstr "0") then Except.ok "0"
  else
    match balance with
    | JsVal.varr [] => Except.ok "0"  -- line 316: empty array
    | _ =>
      -- lines 315 to 318: an array contributes its first element
      let bs0 : JsPrim :=
        match balance with
        | JsVal.varr (p :: _) => p
        | JsVal.prim p => p
        | JsVal.varr [] => JsPrim.pnull  -- not reached: returned above
      -- lines 320 to 330: objects contribute their toString value (every
      -- modelled object carries the inherited toString, so the hex and
      -- default branches of lines 323 to 327 are not reached); all other
      -- primitives go through String(value)
      let bs1 : String :=
        match bs0 with
        | JsPrim.pobj ts _ => ts
        | p => jsPrimToString p
      -- line 333: strip quotes and whitespace
      let bs2 := stripQuotesWs bs1
      -- lines 336 to 349: bracketed strings are parsed as JSON, the
      -- first element kept; on parse failure a bracketed digit run is
      -- extracted manually
      let bs3 :=
        if startsWithCh bs2 '[' && endsWithCh bs2 ']' then
          match jsonParseIntArr? bs2 with
          | some (p :: _) => jsPrimToString p
          | some [] => bs2
          | none =>
            match extractBracketNum? bs2.data with
            | some digs => (⟨digs⟩ : String)
            | none => bs2
        else bs2
      -- line 351
      if bs3 = "" || bs3 = "0" then Except.ok "0"
      else
        match eth with
        | some f => f bs3 decimals  -- lines 354 to 359, may throw
        | none =>
          -- lines 361 to 381: BigInt fallback; a BigInt construction
          -- error is caught and the raw string returned
          match parseBigInt? bs3 with
          | some n => Except.ok (bigIntFormat n decimals)
          | none => Except.ok bs3

/-- Embedding of formatTokenBalance: the body wrapped in the outer
try catch of lines 308 and 383 to 387, whose handler returns
String of balance or else the zero string. -/
def formatTokenBalance (eth : Option EthersFloatFmt) (balance : JsVal)
    (decimals : Nat) : String :=
  match formatTokenBalanceBody eth balance decimals with
  | Except.ok s => s
  | Except.error _ => jsToString (jsOrZero balance)

/-! ### The multicall batch engine (blockchainUtils.js lines 174 to 265)

The network and the ABI coder are oracles:

* node : the provider side of tryAggregate, taking the requireSuccess
  flag and the formatted calls and returning either the per call result
  array or a transport failure;
* dec : defaultAbiCoder.decode, taking the output type list and the
  return bytes and returning either the decoded value array or a decode
  exception message;
* encodeAgg : the interface encoder for the reference aggregate call
  data, which may also throw. -/

structure AbiParam where
  name : String
  ty : String
deriving DecidableEq

structure AbiItem where
  itemType : String
  name : String
  inputs : List AbiParam
  outputs : Option (List AbiParam)
deriving DecidableEq

/-- Embedding of standardAbis.erc20 (the fields the engine consults:
type, name, inputs, outputs). -/
def erc20Abi : List AbiItem :=
  [ { itemType := "function", name := "name", inputs := [],
      outputs := some [{ name := "", ty := "string" }] },
    { itemType := "function", name := "symbol", inputs := [],
      outputs := some [{ name := "", ty := "string" }] },
    { itemType := "function", name := "decimals", inputs := [],
      outputs := some [{ name := "", ty := "uint8" }] },
    { itemType := "function", name := "totalSupply", inputs := [],
      outputs := some [{ name := "", ty := "uint256" }] },
    { itemType := "function", name := "balanceOf",
      inputs := [{ name := "_owner", ty := "address" }],
      outputs := some [{ name := "balance", ty := "uint256" }] },
    { itemType := "function", name := "allowance",
      inputs := [{ name := "_owner", ty := "address" },
                 { name := "_spender", ty := "address" }],
      outputs := some [{ name := "", ty := "uint256" }] } ]

/-- An input call as assembled by the callers of makeMulticall; abi and
methodName may be absent. -/
structure Call where
  target : String
  callData : String
  abi : Option (List AbiItem)
  methodName : Option String
deriving DecidableEq

/-- The target and callData pair submitted to the aggregator
(lines 189 to 192). -/
structure FormattedCall where
  target : String
  callData : String
deriving DecidableEq

def toFormatted (c : Call) : FormattedCall :=
  { target := c.target, callData := c.callData }

/-- One entry of the tryAggregate answer: the Multicall3.Result pair. -/
structure AggResultEntry where
  success : Bool
  returnData : String
deriving DecidableEq

/-- One entry of the processed results array (lines 228 to 235). -/
structure ProcessedResult where
  callIndex : Nat
  target : String
  methodName : String
  success : Bool
  result : String
  rawData : String
deriving DecidableEq

/-- Embedding of the abi.find of lines 209 to 211. -/
def findMethod (abi : List AbiItem) (methodName : String) : Option AbiItem :=
  abi.find? (fun item => item.itemType == "function" && item.name == methodName)

def DecodeOracle : Type := List String → String → Except String (List JsPrim)

/-- Embedding of the body of the result map (lines 199 to 236) for one
entry: item is the aggregator result at this index and originalCall the
input call at the same index. -/
def processOne (dec : DecodeOracle) (index : Nat) (item : AggResultEntry)
    (originalCall : Call) : ProcessedResult :=
  let success := item.success
  let returnData := item.returnData
  let decodedResult :=
    if success && returnData != "" && originalCall.abi.isSome
        && jsTruthyOptStr originalCall.methodName then
      match findMethod (originalCall.abi.getD []) (originalCall.methodName.getD "") with
      | some method =>
        match method.outputs with
        | some outs =>
          if outs.length > 0 then
            match dec (outs.map AbiParam.ty) returnData with
            | Except.ok decoded => formatResult (JsVal.varr decoded)
            | Except.error msg =>
              "Decode error: " ++ msg ++ " (Raw: " ++ returnData ++ ")"
          else returnData
        | none => returnData
      | none => returnData
    else if !success then "Call failed (Raw: " ++ returnData ++ ")"
    else returnData
  { callIndex := index, target := originalCall.target,
    methodName := jsStrOr originalCall.methodName "unknown",
    success := success, result := decodedResult, rawData := returnData }

/-- Embedding of result.map over the aggregator answer with its running
index: an index with no corresponding input call makes the JavaScript
body throw on the undefined access, which aborts the whole map. -/
def processResultsGo (dec : DecodeOracle) (calls : List Call) :
    Nat → List AggResultEntry → Except String (List ProcessedResult)
  | _, [] => Except.ok []
  | i, item :: rest =>
    match calls[i]? with
    | none => Except.error "Cannot read properties of undefined"
    | some c =>
      match processResultsGo dec calls (i + 1) rest with
      | Except.ok l => Except.ok (processOne dec i item c :: l)
      | Except.error e => Except.error e

def processResults (dec : DecodeOracle) (calls : List Call)
    (result : List AggResultEntry) : Except String (List ProcessedResult) :=
  processResultsGo dec calls 0 result

structure MulticallResponse where
  results : List ProcessedResult
  aggregateCallData : String
  success : Bool
  totalCalls : Nat
  successfulCalls : Nat
deriving DecidableEq

def NodeOracle : Type := Bool → List FormattedCall → Except String (List AggResultEntry)

def EncodeAggOracle : Type := Bool → List FormattedCall → Except String String

/-- Embedding of makeMulticall.  An error value is a thrown exception;
the guard of line 180 throws its message directly, every throw inside
the try of line 184 is rewrapped by the catch of line 262 into the
Multicall failed message. -/
def makeMulticall (node : NodeOracle) (dec : DecodeOracle)
    (encodeAgg : EncodeAggOracle) (rpcUrl multicallAddress : String)
    (calls : List Call) : Except String MulticallResponse :=
  if rpcUrl = "" || multicallAddress = "" || calls.isEmpty then
    Except.error "Missing required parameters for multicall"
  else
    let formattedCalls := calls.map toFormatted
    let requireSuccess := false
    match node requireSuccess formattedCalls with
    | Except.error e => Except.error ("Multicall failed: " ++ e)
    | Except.ok result =>
      match processResults dec calls result with
      | Except.error e => Except.error ("Multicall failed: " ++ e)
      | Except.ok processedResults =>
        let aggregateCallData :=
          match encodeAgg requireSuccess formattedCalls with
          | Except.ok s => s
          | Except.error m => "Error encoding aggregate call data: " ++ m
        Except.ok
          { results := processedResults,
            aggregateCallData := aggregateCallData,
            success := true,
            totalCalls := calls.length,
            successfulCalls := (processedResults.filter (fun r => r.success)).length }

/-! ### CoinGecko metadata service (coingeckoService.js)

parseTokenData consumes the parsed JSON body.  The body is modelled by
the fields the function reads: detail_platforms as an association list
in object key order, the optional image urls, and the optional USD
price (a rational, the shallow stand in for a JSON number). -/

/-- Model of String.prototype.toLowerCase for the ASCII addresses and
keys this service handles. -/
def toLowerCh (c : Char) : Char :=
  if 'A' ≤ c ∧ c ≤ 'Z' then Char.ofNat (c.toNat + 32) else c

def jsToLower (s : String) : String := ⟨s.data.map toLowerCh⟩

structure PlatformEntry where
  contract_address : Option String
  decimal_place : Option Nat
deriving DecidableEq

structure ApiData where
  name : String
  symbol : String
  image_small : Option String
  image_thumb : Option String
  detail_platforms : Option (List (String × PlatformEntry))
  market_usd : Option ℚ
deriving DecidableEq

structure TokenInfo where
  name : String
  symbol : String
  image : Option String
  price : ℚ
  decimals : Nat
  chainName : String
  contractAddress : String
deriving DecidableEq

/-- Embedding of the platforms.find of lines 108 to 112: the first key
whose platform data has a truthy contract_address equal, lowercased, to
the requested address. -/
def findPlatform (data : ApiData) (contractAddress : String) :
    Option (String × PlatformEntry) :=
  match data.detail_platforms with
  | none => none
  | some ps => ps.find? (fun kv =>
      match kv.2.contract_address with
      | some ca => ca != "" && jsToLower ca == jsToLower contractAddress
      | none => false)

/-- Embedding of parseTokenData (lines 99 to 129).  An empty object key
is falsy, so line 114 skips it; decimal_place OR 18 maps both an absent
and a zero decimal_place to 18; the price defaults to 0. -/
def parseTokenData (data : ApiData) (contractAddress : String) : TokenInfo :=
  let found := findPlatform data contractAddress
  let decChain : Nat × String :=
    match found with
    | some kv =>
      if kv.1 = "" then (18, "")
      else
        ((match kv.2.decimal_place with
          | some n => if n = 0 then 18 else n
          | none => 18), kv.1)
    | none => (18, "")
  { name := data.name,
    symbol := data.symbol,
    image :=
      (match data.image_small with
       | some s => if s = "" then data.image_thumb else some s
       | none => data.image_thumb),
    price := data.market_usd.getD 0,
    decimals := decChain.1,
    chainName := decChain.2,
    contractAddress := jsToLower contractAddress }

/-! ### The rate limited queue (coingeckoService.js lines 35 to 94)

The queue drain loop is embedded as a fuelled recursion over an
explicit state; the fetch is an oracle indexed by the running count of
requests issued.  Each iteration appends the events it produces, in
order: a fetched event when a network request is issued, a resolved
event whenever a resolve channel is completed.  A rejected event
constructor exists because every queue entry carries a reject channel,
but the source never invokes it.  The two timing constants come from
the constructor (lines 11 and 12); awaiting a delay advances the
clock. -/

def rateLimitDelay : Nat := 1000

def retryDelay : Nat := 5000

structure QueueItem where
  contractAddress : String
  chainId : String
deriving DecidableEq

/-- Embedding of getChainToPlatformMap (lines 18 to 30). -/
def getChainToPlatformMap : List (String × String) :=
  [ ("1", "ethereum"),
    ("56", "binance-smart-chain"),
    ("137", "polygon-pos"),
    ("43114", "avalanche"),
    ("250", "fantom"),
    ("42161", "arbitrum-one"),
    ("10", "optimistic-ethereum"),
    ("369", "pulsechain") ]

/-- Object property lookup on the chain map (line 53). -/
def platformFor (chainId : String) : Option String :=
  (getChainToPlatformMap.find? (fun kv => kv.1 == chainId)).map (fun kv => kv.2)

/-- Embedding of the cache key of line 44. -/
def cacheKey (e : QueueItem) : String :=
  e.chainId ++ "-" ++ jsToLower e.contractAddress

/-- Map.has and Map.get combined: the cached value (itself an optional
TokenInfo, since failures cache null) when the key is present. -/
def cacheLookup (cache : List (String × Option TokenInfo)) (key : String) :
    Option (Option TokenInfo) :=
  (cache.find? (fun kv => kv.1 == key)).map (fun kv => kv.2)

/-- Outcome of one fetch of the token url: rate limited, a 2xx with a
parsable body, a 2xx whose body fails to parse (response.json throws),
a non 2xx non 429 status, or a network failure (fetch throws). -/
inductive FetchOutcome where
  | status429
  | okJson (d : ApiData)
  | okBadJson
  | httpError
  | networkError
deriving DecidableEq

structure QueueState where
  apiQueue : List QueueItem
  cache : List (String × Option TokenInfo)
  isProcessingQueue : Bool
  fetchCount : Nat
  now : Nat
deriving DecidableEq

inductive QueueEvent where
  | fetched (key : String) (atTime : Nat)
  | resolvedEv (key : String) (value : Option TokenInfo) (atTime : Nat)
  | rejectedEv (key : String) (atTime : Nat)
deriving DecidableEq

def QueueEvent.atTime : QueueEvent → Nat
  | .fetched _ t => t
  | .resolvedEv _ _ t => t
  | .rejectedEv _ t => t

def FetchOracle : Type := Nat → FetchOutcome

/-- Embedding of the while loop of lines 42 to 91.  Each iteration
shifts the front entry; a cache hit resolves immediately and skips the
delay (the continue of line 49); an unmapped chain caches null and
resolves null with no fetch and no delay (lines 54 to 58); a 429
unshifts the entry back to the front and pauses the whole queue for
retryDelay (lines 63 to 69); a good response caches and resolves the
parsed data; any other failure caches null and resolves null (lines 78
to 87); the three response outcomes then wait rateLimitDelay
(line 90). -/
def drainLoop (oracle : FetchOracle) : Nat → QueueState → QueueState × List QueueEvent
  | 0, st => (st, [])
  | fuel + 1, st =>
    match st.apiQueue with
    | [] => ({ st with isProcessingQueue := false }, [])
    | e :: rest =>
      let key := cacheKey e
      match cacheLookup st.cache key with
      | some v =>
        let next := drainLoop oracle fuel { st with apiQueue := rest }
        (next.1, QueueEvent.resolvedEv key v st.now :: next.2)
      | none =>
        match platformFor e.chainId with
        | none =>
          let st1 := { st with apiQueue := rest, cache := (key, none) :: st.cache }
          let next := drainLoop oracle fuel st1
          (next.1, QueueEvent.resolvedEv key none st.now :: next.2)
        | some _platformId =>
          match oracle st.fetchCount with
          | FetchOutcome.status429 =>
            let st1 := { st with apiQueue := e :: rest,
                                 fetchCount := st.fetchCount + 1,
                                 now := st.now + retryDelay }
            let next := drainLoop oracle fuel st1
            (next.1, QueueEvent.fetched key st.now :: next.2)
          | FetchOutcome.okJson d =>
            let info := parseTokenData d e.contractAddress
            let st1 := { st with apiQueue := rest,
                                 cache := (key, some info) :: st.cache,
                                 fetchCount := st.fetchCount + 1,
                                 now := st.now + rateLimitDelay }
            let next := drainLoop oracle fuel st1
            (next.1, QueueEvent.fetched key st.now ::
                     QueueEvent.resolvedEv key (some info) st.now :: next.2)
          | _ =>
            let st1 := { st with apiQueue := rest,
                                 cache := (key, none) :: st.cache,
                                 fetchCount := st.fetchCount + 1,
                                 now := st.now + rateLimitDelay }
            let next := drainLoop oracle fuel st1
            (next.1, QueueEvent.fetched key st.now ::
                     QueueEvent.resolvedEv key none st.now :: next.2)

/-- Embedding of processApiQueue including the reentrancy guard of
lines 36 to 40: a no op when already draining or empty, otherwise the
drain loop runs with the flag set. -/
def processApiQueue (oracle : FetchOracle) (fuel : Nat) (st : QueueState) :
    QueueState × List QueueEvent :=
  if st.isProcessingQueue || st.apiQueue.isEmpty then (st, [])
  else drainLoop oracle fuel { st with isProcessingQueue := true }

/-! ### Specification side interpretation of decimal strings

To state exactness, a display string is read back as a rational: an
optional integer part, an optional dot, a fractional digit group.
These definitions belong to the specification vocabulary, not to the
source. -/

def splitDot : List Char → Option (List Char × List Char)
  | [] => none
  | c :: cs =>
    if c = '.' then some ([], cs)
    else
      match splitDot cs with
      | some (a, b) => some (c :: a, b)
      | none => none

/-- The rational denoted by a decimal display string, or none when the
string is not a plain decimal numeral. -/
def decVal? (s : String) : Option ℚ :=
  match splitDot s.data with
  | none =>
    if !s.data.isEmpty && allDigitsL s.data then some (listVal s.data : ℚ) else none
  | some (w, f) =>
    if !w.isEmpty && !f.isEmpty && allDigitsL w && allDigitsL f then
      some ((listVal w : ℚ) + (listVal f : ℚ) / (10 : ℚ) ^ f.length)
    else none

/-- The fractional part, when present, is nonempty and carries no
trailing zero. -/
def noTrailingFracZeroB (s : String) : Bool :=
  match splitDot s.data with
  | none => true
  | some (_, f) => !f.isEmpty && f.getLast? != some '0'

/-! ### Lemmas: the decimal printer round trips -/

theorem digitChar_isDigit {n : Nat} (h : n < 10) : (digitChar n).isDigit = true := by
  interval_cases n <;> decide

theorem toNat_digitChar {n : Nat} (h : n < 10) : (digitChar n).toNat - 48 = n := by
  interval_cases n <;> decide

theorem digitChar_ne_dot {n : Nat} (h : n < 10) : digitChar n ≠ '.' := by
  interval_cases n <;> decide

theorem natReprGo_congr : ∀ f₁ : Nat, ∀ n : Nat, n < f₁ → ∀ f₂ : Nat, n < f₂ →
    natReprGo f₁ n = natReprGo f₂ n := by
  intro f₁
  induction f₁ with
  | zero => intro n h; omega
  | succ f ih =>
    intro n h f₂ h₂
    match f₂, h₂ with
    | f' + 1, _ =>
      show natReprGo (f + 1) n = natReprGo (f' + 1) n
      by_cases h10 : n < 10
      · simp [natReprGo, h10]
      · have hdiv : n / 10 < n := Nat.div_lt_self (by omega) (by omega)
        have h1 : n / 10 < f := by omega
        have h2 : n / 10 < f' := by omega
        simp [natReprGo, h10]
        exact ih (n / 10) h1 f' h2

theorem natReprGo_ne_nil {f n : Nat} (h : n < f) : natReprGo f n ≠ [] := by
  match f, h with
  | f' + 1, _ =>
    by_cases h10 : n < 10 <;> simp [natReprGo, h10]

theorem allDigitsL_natReprGo : ∀ f n : Nat, n < f → allDigitsL (natReprGo f n) = true := by
  intro f
  induction f with
  | zero => intro n h; omega
  | succ f ih =>
    intro n h
    by_cases h10 : n < 10
    · simp [natReprGo, h10, allDigitsL, digitChar_isDigit h10]
    · have hdiv : n / 10 < n := Nat.div_lt_self (by omega) (by omega)
      have h1 : n / 10 < f := by omega
      have := ih (n / 10) h1
      simp only [natReprGo, if_neg h10, allDigitsL, List.all_append, List.all_cons,
        List.all_nil, Bool.and_true, Bool.and_eq_true] at *
      exact ⟨this, digitChar_isDigit (Nat.mod_lt n (by omega))⟩

theorem listVal_aux (l : List Char) (a : Nat) :
    l.foldl (fun a c => 10 * a + (c.toNat - 48)) a
      = a * 10 ^ l.length + listVal l := by
  induction l generalizing a with
  | nil => simp [listVal]
  | cons c cs ih =>
    have hl : listVal (c :: cs) = (c.toNat - 48) * 10 ^ cs.length + listVal cs := by
      show List.foldl _ (10 * 0 + (c.toNat - 48)) cs = _
      rw [ih]
      ring
    simp only [List.foldl_cons, List.length_cons, hl]
    rw [ih]
    ring

theorem listVal_append (a b : List Char) :
    listVal (a ++ b) = listVal a * 10 ^ b.length + listVal b := by
  unfold listVal
  rw [List.foldl_append]
  exact listVal_aux b _

theorem listVal_natReprGo : ∀ f n : Nat, n < f → listVal (natReprGo f n) = n := by
  intro f
  induction f with
  | zero => intro n h; omega
  | succ f ih =>
    intro n h
    by_cases h10 : n < 10
    · simp [natReprGo, h10, listVal, toNat_digitChar h10]
    · have hdiv : n / 10 < n := Nat.div_lt_self (by omega) (by omega)
      have h1 : n / 10 < f := by omega
      simp only [natReprGo, if_neg h10]
      rw [listVal_append, ih (n / 10) h1]
      have : listVal [digitChar (n % 10)] = n % 10 := by
        simp [listVal, toNat_digitChar (Nat.mod_lt n (by omega))]
      rw [this]
      simp only [List.length_cons, List.length_nil, pow_one, zero_add]
      omega

theorem length_natReprGo_le : ∀ f n k : Nat, n < f → n < 10 ^ k → 1 ≤ k →
    (natReprGo f n).length ≤ k := by
  intro f
  induction f with
  | zero => intro n k h; omega
  | succ f ih =>
    intro n k h hk hk1
    by_cases h10 : n < 10
    · simp [natReprGo, h10]; omega
    · have hdiv : n / 10 < n := Nat.div_lt_self (by omega) (by omega)
      have h1 : n / 10 < f := by omega
      have hk2 : 2 ≤ k := by
        by_contra hc
        have : k = 1 := by omega
        subst this
        simp at hk
        omega
      have hnd : n / 10 < 10 ^ (k - 1) := by
        have : n < 10 ^ k := hk
        have hpow : 10 ^ k = 10 ^ (k - 1) * 10 := by
          have : k - 1 + 1 = k := by omega
          calc 10 ^ k = 10 ^ (k - 1 + 1) := by rw [this]
            _ = 10 ^ (k - 1) * 10 := by rw [pow_succ]
        apply Nat.div_lt_of_lt_mul
        omega
      have := ih (n / 10) (k - 1) h1 hnd (by omega)
      simp only [natReprGo, if_neg h10, List.length_append, List.length_cons,
        List.length_nil]
      omega

theorem natRepr10_data (n : Nat) : (natRepr10 n).data = natReprGo (n + 1) n := rfl

theorem listVal_natRepr10 (n : Nat) : listVal (natRepr10 n).data = n :=
  listVal_natReprGo (n + 1) n (by omega)

theorem allDigitsL_natRepr10 (n : Nat) : allDigitsL (natRepr10 n).data = true :=
  allDigitsL_natReprGo (n + 1) n (by omega)

theorem natRepr10_ne_empty (n : Nat) : (natRepr10 n).data ≠ [] :=
  natReprGo_ne_nil (by omega)

/-! ### Lemmas: trimming, padding and splitting digit strings -/

theorem listVal_replicate_zero (m : Nat) : listVal (List.replicate m '0') = 0 := by
  induction m with
  | zero => rfl
  | succ k ih =>
    have : List.replicate (k + 1) '0' = List.replicate k '0' ++ ['0'] := by
      rw [List.replicate_succ']
  /- replicate_succ' gives replicate (n+1) a = replicate n a ++ [a] -/
    rw [this, listVal_append, ih]
    rfl

theorem listVal_leading_zeros (m : Nat) (l : List Char) :
    listVal (List.replicate m '0' ++ l) = listVal l := by
  rw [listVal_append, listVal_replicate_zero]
  simp

theorem trimR_decomp (l : List Char) :
    l = (l.reverse.dropWhile (fun c => c == '0')).reverse
        ++ List.replicate (l.reverse.takeWhile (fun c => c == '0')).length '0' := by
  have h1 : l.reverse.takeWhile (fun c => c == '0') ++ l.reverse.dropWhile (fun c => c == '0')
      = l.reverse := List.takeWhile_append_dropWhile (fun c => c == '0') l.reverse
  have h2 : l.reverse.takeWhile (fun c => c == '0')
      = List.replicate (l.reverse.takeWhile (fun c => c == '0')).length '0' := by
    apply List.eq_replicate_of_mem
    intro b hb
    have := List.mem_takeWhile_imp hb
    simpa using this
  have h3 : (l.reverse.takeWhile (fun c => c == '0')).reverse
      = List.replicate (l.reverse.takeWhile (fun c => c == '0')).length '0' := by
    rw [h2, List.reverse_replicate, List.length_replicate]
  calc l = l.reverse.reverse := by rw [List.reverse_reverse]
    _ = (l.reverse.takeWhile (fun c => c == '0')
          ++ l.reverse.dropWhile (fun c => c == '0')).reverse := by rw [h1]
    _ = (l.reverse.dropWhile (fun c => c == '0')).reverse
          ++ (l.reverse.takeWhile (fun c => c == '0')).reverse := by
        rw [List.reverse_append]
    _ = _ := by
        rw [h3]

theorem head?_dropWhile_false {p : Char → Bool} :
    ∀ l : List Char, ∀ a, (l.dropWhile p).head? = some a → p a = false := by
  intro l
  induction l with
  | nil => intro a h; simp [List.dropWhile] at h
  | cons c cs ih =>
    intro a h
    by_cases hc : p c
    · rw [List.dropWhile_cons_of_pos hc] at h
      exact ih a h
    · rw [List.dropWhile_cons_of_neg hc] at h
      simp at h
      subst h
      exact Bool.eq_false_iff.mpr hc

theorem trimR_no_trailing_zero (l : List Char) :
    ((l.reverse.dropWhile (fun c => c == '0')).reverse).getLast? ≠ some '0' := by
  rw [List.getLast?_reverse]
  intro h
  have := head?_dropWhile_false _ '0' h
  simp at this

theorem mem_trimR {l : List Char} {a : Char}
    (h : a ∈ (l.reverse.dropWhile (fun c => c == '0')).reverse) : a ∈ l := by
  rw [List.mem_reverse] at h
  have := (List.dropWhile_sublist (l := l.reverse) (fun c => c == '0')).mem h
  rw [List.mem_reverse] at this
  exact this

theorem splitDot_no_dot : ∀ l : List Char, '.' ∉ l → splitDot l = none := by
  intro l
  induction l with
  | nil => intro _; rfl
  | cons c cs ih =>
    intro h
    have hc : c ≠ '.' := by
      intro he; exact h (he ▸ List.mem_cons_self c cs)
    have hcs : '.' ∉ cs := fun hm => h (List.mem_cons_of_mem c hm)
    simp [splitDot, hc, ih hcs]

theorem splitDot_append : ∀ a : List Char, '.' ∉ a → ∀ b,
    splitDot (a ++ '.' :: b) = some (a, b) := by
  intro a
  induction a with
  | nil => intro _ b; simp [splitDot]
  | cons c cs ih =>
    intro h b
    have hc : c ≠ '.' := by
      intro he; exact h (he ▸ List.mem_cons_self c cs)
    have hcs : '.' ∉ cs := fun hm => h (List.mem_cons_of_mem c hm)
    simp [splitDot, hc, ih hcs b]

theorem dot_not_mem_of_digits {l : List Char} (h : allDigitsL l = true) : '.' ∉ l := by
  intro hm
  have := List.all_eq_true.mp h '.' hm
  simp [Char.isDigit] at this

/-! ### Exactness of the BigInt fallback formatter -/

theorem isEmpty_false_of_ne_nil {l : List Char} (h : l ≠ []) : l.isEmpty = false := by
  cases l with
  | nil => exact absurd rfl h
  | cons a t => rfl

theorem decVal?_digits {s : String} (hne : s.data ≠ []) (hd : allDigitsL s.data = true) :
    decVal? s = some (listVal s.data : ℚ) := by
  have hnd : '.' ∉ s.data := dot_not_mem_of_digits hd
  simp [decVal?, splitDot_no_dot s.data hnd, isEmpty_false_of_ne_nil hne, hd]

theorem decVal?_natRepr10 (n : Nat) : decVal? (natRepr10 n) = some (n : ℚ) := by
  rw [decVal?_digits (natRepr10_ne_empty n) (allDigitsL_natRepr10 n), listVal_natRepr10]

theorem noTrailing_natRepr10 (n : Nat) : noTrailingFracZeroB (natRepr10 n) = true := by
  have hnd : '.' ∉ (natRepr10 n).data := dot_not_mem_of_digits (allDigitsL_natRepr10 n)
  simp [noTrailingFracZeroB, splitDot_no_dot _ hnd]

theorem decVal?_split_some {s : String} {w f : List Char}
    (h : splitDot s.data = some (w, f)) :
    decVal? s = if (!w.isEmpty && !f.isEmpty && allDigitsL w && allDigitsL f) = true
      then some ((listVal w : ℚ) + (listVal f : ℚ) / (10 : ℚ) ^ f.length)
      else none := by
  unfold decVal?
  rw [h]

theorem noTrailingFracZeroB_split_some {s : String} {w f : List Char}
    (h : splitDot s.data = some (w, f)) :
    noTrailingFracZeroB s = (!f.isEmpty && f.getLast? != some '0') := by
  unfold noTrailingFracZeroB
  rw [h]

theorem bigIntFormat_exact (n d : Nat) :
    decVal? (bigIntFormat n d) = some ((n : ℚ) / (10 : ℚ) ^ d)
    ∧ noTrailingFracZeroB (bigIntFormat n d) = true := by
  by_cases hr : n % 10 ^ d = 0
  · -- the fractional group vanishes: the quotient alone is printed
    have hdvd : 10 ^ d ∣ n := Nat.dvd_of_mod_eq_zero hr
    have hout : bigIntFormat n d = natRepr10 (n / 10 ^ d) := by
      simp [bigIntFormat, hr]
    constructor
    · rw [hout, decVal?_natRepr10]
      congr 1
      rw [Nat.cast_div hdvd (by positivity)]
      push_cast
      ring
    · rw [hout]; exact noTrailing_natRepr10 _
  · -- nonzero fractional group: pad, trim, and join with a dot
    have hd1 : 1 ≤ d := by
      by_contra hc
      have : d = 0 := by omega
      subst this
      simp [Nat.mod_one] at hr
    have hrpos : 1 ≤ n % 10 ^ d := Nat.one_le_iff_ne_zero.mpr hr
    have hrlt : n % 10 ^ d < 10 ^ d := Nat.mod_lt n (Nat.pos_pow_of_pos d (by omega))
    set r := n % 10 ^ d with hr_def
    set q := n / 10 ^ d with hq_def
    have hlen : (natRepr10 r).data.length ≤ d :=
      length_natReprGo_le (r + 1) r d (by omega) hrlt hd1
    -- the padded fractional digit group
    have hpad_data : (padStartZeros (natRepr10 r) d).data
        = List.replicate (d - (natRepr10 r).data.length) '0' ++ (natRepr10 r).data := rfl
    have hpad_len : (padStartZeros (natRepr10 r) d).data.length = d := by
      rw [hpad_data, List.length_append, List.length_replicate]
      omega
    have hpad_val : listVal (padStartZeros (natRepr10 r) d).data = r := by
      rw [hpad_data, listVal_leading_zeros, listVal_natRepr10]
    have hpad_digits : allDigitsL (padStartZeros (natRepr10 r) d).data = true := by
      rw [hpad_data, allDigitsL, List.all_append]
      have h0 : (List.replicate (d - (natRepr10 r).data.length) '0').all Char.isDigit = true := by
        rw [List.all_eq_true]
        intro c hc
        rw [List.mem_replicate] at hc
        rw [hc.2]; rfl
      rw [h0]
      have h1 : (natRepr10 r).data.all Char.isDigit = true := allDigitsL_natRepr10 r
      rw [h1]
      rfl
    -- the trimmed fractional digit group
    set P := (padStartZeros (natRepr10 r) d).data with hP_def
    set T := (P.reverse.dropWhile (fun c => c == '0')).reverse with hT_def
    set m := (P.reverse.takeWhile (fun c => c == '0')).length with hm_def
    have hdecomp : P = T ++ List.replicate m '0' := trimR_decomp P
    have hval : r = listVal T * 10 ^ m := by
      have := hpad_val
      rw [show listVal P = listVal T * 10 ^ m by
        rw [hdecomp, listVal_append, listVal_replicate_zero, List.length_replicate]
        ring] at this
      omega
    have hTlen : T.length + m = d := by
      have := hpad_len
      rw [hdecomp, List.length_append, List.length_replicate] at this
      omega
    have hTne : T ≠ [] := by
      intro hTnil
      rw [hTnil] at hval
      simp [listVal] at hval
      omega
    have hTdigits : allDigitsL T = true := by
      rw [allDigitsL, List.all_eq_true]
      intro c hc
      have hmem : c ∈ P := by
        rw [hdecomp]
        exact List.mem_append_left _ hc
      exact List.all_eq_true.mp hpad_digits c hmem
    have htrim : (dropTrailingZeros (padStartZeros (natRepr10 r) d)).data = T := rfl
    have htrim_ne : dropTrailingZeros (padStartZeros (natRepr10 r) d) ≠ "" := by
      intro hs
      apply hTne
      rw [← htrim, hs]
    have hout : bigIntFormat n d
        = natRepr10 q ++ "." ++ dropTrailingZeros (padStartZeros (natRepr10 r) d) := by
      rw [bigIntFormat]
      simp only [← hr_def, ← hq_def]
      rw [if_neg hr, if_neg htrim_ne]
    have hout_data : (bigIntFormat n d).data = (natRepr10 q).data ++ '.' :: T := by
      rw [hout]
      show ((natRepr10 q ++ "." : String) ++ dropTrailingZeros (padStartZeros (natRepr10 r) d)).data = _
      rw [String.data_append, String.data_append, htrim]
      simp
    have hsplit : splitDot (bigIntFormat n d).data = some ((natRepr10 q).data, T) := by
      rw [hout_data]
      exact splitDot_append _ (dot_not_mem_of_digits (allDigitsL_natRepr10 q)) T
    constructor
    · -- the displayed value is exactly n over ten to the d
      rw [decVal?_split_some hsplit]
      rw [isEmpty_false_of_ne_nil (natRepr10_ne_empty q), isEmpty_false_of_ne_nil hTne,
        allDigitsL_natRepr10 q, hTdigits]
      simp only [Bool.not_false, Bool.and_true, Bool.true_and, Bool.and_self]
      rw [if_pos trivial]
      congr 1
      rw [listVal_natRepr10]
      have hn : (n : ℚ) = (q : ℚ) * (10 : ℚ) ^ d + (listVal T : ℚ) * (10 : ℚ) ^ m := by
        have hnat : q * 10 ^ d + r = n := by
          have h := Nat.div_add_mod n (10 ^ d)
          rw [← hq_def, ← hr_def] at h
          calc q * 10 ^ d + r = 10 ^ d * q + r := by ring
            _ = n := h
        have : ((q * 10 ^ d + r : Nat) : ℚ) = (n : ℚ) := by exact_mod_cast hnat
        rw [← this, hval]
        push_cast
        ring
      have hpow : (10 : ℚ) ^ d = (10 : ℚ) ^ T.length * (10 : ℚ) ^ m := by
        rw [← pow_add, hTlen]
      rw [hn, hpow]
      have h10T : (10 : ℚ) ^ T.length ≠ 0 := by positivity
      have h10m : (10 : ℚ) ^ m ≠ 0 := by positivity
      field_simp
      ring
    · -- no trailing zero survives in the fractional group
      rw [noTrailingFracZeroB_split_some hsplit, isEmpty_false_of_ne_nil hTne]
      have := trimR_no_trailing_zero P
      rw [← hT_def] at this
      simp [this]

/-! ### Digit strings pass the front matter of formatTokenBalance unchanged -/

theorem digit_beq_false {c t : Char} (h : c.isDigit = true) (ht : t.isDigit = false) :
    (c == t) = false := by
  by_contra hc
  simp only [Bool.not_eq_false, beq_iff_eq] at hc
  subst hc
  rw [h] at ht
  exact absurd ht (by decide)

theorem digit_not_stripped {c : Char} (h : c.isDigit = true) :
    (!(c == '"' || c == ' ' || c == '\t' || c == '\n' || c == '\r')) = true := by
  rw [digit_beq_false h (by decide), digit_beq_false h (by decide),
    digit_beq_false h (by decide), digit_beq_false h (by decide),
    digit_beq_false h (by decide)]
  rfl

theorem stripQuotesWs_digits {s : String} (h : allDigitsL s.data = true) :
    stripQuotesWs s = s := by
  unfold stripQuotesWs
  have hf : s.data.filter
      (fun c => !(c == '"' || c == ' ' || c == '\t' || c == '\n' || c == '\r')) = s.data := by
    apply List.filter_eq_self.mpr
    intro a ha
    exact digit_not_stripped (List.all_eq_true.mp h a ha)
  rw [hf]

theorem startsWith_digits_not_lbracket {s : String} (h : allDigitsL s.data = true)
    (hne : s.data ≠ []) : startsWithCh s '[' = false := by
  unfold startsWithCh
  rcases hsd : s.data with _ | ⟨c, cs⟩
  · exact absurd hsd hne
  · have hc : c.isDigit = true := by
      apply List.all_eq_true.mp h
      rw [hsd]
      exact List.mem_cons_self c cs
    show (c == '[') = false
    exact digit_beq_false hc (by decide)

theorem data_ne_nil_of_ne_empty {s : String} (hne : s ≠ "") : s.data ≠ [] := by
  intro h0
  apply hne
  apply String.ext
  rw [h0]

theorem formatTokenBalance_digits {s : String} (hd : allDigitsL s.data = true)
    (hne : s ≠ "") (hnz : s ≠ "0") (d : Nat) :
    formatTokenBalance none (JsVal.prim (JsPrim.pstr s)) d
      = bigIntFormat (listVal s.data) d := by
  have hdata : s.data ≠ [] := data_ne_nil_of_ne_empty hne
  have h3 : stripQuotesWs s = s := stripQuotesWs_digits hd
  have h4 : startsWithCh s '[' = false := startsWith_digits_not_lbracket hd hdata
  have h5 : parseBigInt? s = some (listVal s.data) := by
    unfold parseBigInt?
    rw [isEmpty_false_of_ne_nil hdata, hd]
    simp
  have hbody : formatTokenBalanceBody none (JsVal.prim (JsPrim.pstr s)) d
      = Except.ok (bigIntFormat (listVal s.data) d) := by
    have e1 : (s == "") = false := beq_eq_false_iff_ne.mpr hne
    have e2 : (JsVal.prim (JsPrim.pstr s) == JsVal.prim (JsPrim.pstr "0")) = false := by
      apply beq_eq_false_iff_ne.mpr
      simp [hnz]
    unfold formatTokenBalanceBody
    simp only [jsFalsy, jsPrimToString, e1, e2, h3, h4,
      Bool.false_and, Bool.or_self, Bool.false_or, Bool.false_eq_true, if_false,
      hne, hnz, decide_False, decide_eq_true_eq]
    rw [h5]
  unfold formatTokenBalance
  rw [hbody]

theorem natRepr10_ne_empty_str (n : Nat) : natRepr10 n ≠ "" := by
  intro h
  exact natRepr10_ne_empty n (congrArg String.data h)

theorem natRepr10_ne_zero_str {n : Nat} (h : n ≠ 0) : natRepr10 n ≠ "0" := by
  intro he
  apply h
  have hv := listVal_natRepr10 n
  rw [he] at hv
  have h0 : listVal ("0".data) = 0 := by decide
  rw [h0] at hv
  omega

theorem decVal?_zero_str : decVal? "0" = some 0 := by decide

/-- C3: the Numeric Normalizer formatTokenBalance, on its integer and
string arithmetic path (the BigInt fallback, selected by the none
environment), turns a decimal raw digit string and a scale into the
exact decimal representation of raw over ten to the scale: the value
read back is exactly n over ten to the d, trailing fractional zeros
are stripped, scale zero returns the raw numeral unchanged, raw zero
displays as the zero string for every scale, and the rounding
counterexample input of nineteen digits is rendered exactly. -/
theorem c3_numeric_normalizer_exact (n d : Nat) :
    decVal? (formatTokenBalance none (JsVal.prim (JsPrim.pstr (natRepr10 n))) d)
        = some ((n : ℚ) / (10 : ℚ) ^ d)
    ∧ noTrailingFracZeroB
        (formatTokenBalance none (JsVal.prim (JsPrim.pstr (natRepr10 n))) d) = true
    ∧ formatTokenBalance none (JsVal.prim (JsPrim.pstr (natRepr10 n))) 0 = natRepr10 n
    ∧ formatTokenBalance none (JsVal.prim (JsPrim.pstr (natRepr10 0))) d = "0"
    ∧ formatTokenBalance none (JsVal.prim (JsPrim.pstr "1000000000000000001")) 18
        = "1.000000000000000001" := by
  have hzero : ∀ k : Nat,
      formatTokenBalance none (JsVal.prim (JsPrim.pstr (natRepr10 0))) k = "0" := by
    intro k
    rfl
  by_cases hn : n = 0
  · subst hn
    refine ⟨?_, ?_, ?_, hzero d, by decide⟩
    · rw [hzero d, decVal?_zero_str]
      rw [Nat.cast_zero, zero_div]
    · rw [hzero d]
      decide
    · rw [hzero 0]
      rfl
  · have hdig := allDigitsL_natRepr10 n
    have hne := natRepr10_ne_empty_str n
    have hnz := natRepr10_ne_zero_str hn
    have hex := bigIntFormat_exact n d
    have hfmt := formatTokenBalance_digits hdig hne hnz d
    rw [listVal_natRepr10] at hfmt
    refine ⟨?_, ?_, ?_, hzero d, by decide⟩
    · rw [hfmt]
      exact hex.1
    · rw [hfmt]
      exact hex.2
    · have hfmt0 := formatTokenBalance_digits hdig hne hnz 0
      rw [listVal_natRepr10] at hfmt0
      rw [hfmt0]
      unfold bigIntFormat
      simp [pow_zero, Nat.mod_one, Nat.div_one]

/-- C4: the five reference vectors of the Numeric Normalizer hold on
the exact integer and string arithmetic path of formatTokenBalance
(the BigInt fallback, selected by the none environment). -/
theorem c4_reference_vectors :
    formatTokenBalance none (JsVal.prim (JsPrim.pstr "1000000000000000000")) 18 = "1"
    ∧ formatTokenBalance none (JsVal.prim (JsPrim.pstr "123456789012345678")) 18
        = "0.123456789012345678"
    ∧ formatTokenBalance none (JsVal.prim (JsPrim.pstr "0")) 18 = "0"
    ∧ formatTokenBalance none (JsVal.prim (JsPrim.pstr "5")) 0 = "5"
    ∧ formatTokenBalance none (JsVal.prim (JsPrim.pstr "100")) 2 = "1" :=
  ⟨by decide, by decide, by decide, by decide, by decide⟩

theorem formatTokenBalanceTail_none_isOk (bs3 : String) (decimals : Nat) :
    (if bs3 = "" || bs3 = "0" then Except.ok "0"
     else
       match (none : Option EthersFloatFmt) with
       | some f => f bs3 decimals
       | none =>
         match parseBigInt? bs3 with
         | some n => Except.ok (bigIntFormat n decimals)
         | none => Except.ok bs3).isOk = true := by
  split
  · rfl
  · cases hp : parseBigInt? bs3 <;> rfl

/-- C9: formatTokenBalance is total and never throws.  For every
balance shape and every scale it returns a string: either its body
completes (isOk, which with the BigInt environment is always the case:
second conjunct), or the outer catch returns String of balance or else
the zero string; every other fallback (the zero string for empty or
zero inputs, the raw string when BigInt construction fails) lives
inside the completing body. -/
theorem c9_formatTokenBalance_total (eth : Option EthersFloatFmt)
    (balance : JsVal) (decimals : Nat) :
    ((formatTokenBalanceBody eth balance decimals).isOk = true
      ∨ formatTokenBalance eth balance decimals = jsToString (jsOrZero balance))
    ∧ (formatTokenBalanceBody none balance decimals).isOk = true := by
  constructor
  · cases hb : formatTokenBalanceBody eth balance decimals with
    | ok s =>
      left
      rfl
    | error e =>
      right
      unfold formatTokenBalance jsOrZero
      rw [hb]
  · unfold formatTokenBalanceBody
    split
    · rfl
    · split
      · rfl
      · exact formatTokenBalanceTail_none_isOk _ _

/-! ### Lemmas: the processed results follow the aggregator answer
positionally -/

theorem listIsEmpty_false {α : Type} {l : List α} (h : l ≠ []) : l.isEmpty = false := by
  cases l with
  | nil => exact absurd rfl h
  | cons a t => rfl

theorem processResultsGo_ok (dec : DecodeOracle) (calls : List Call) :
    ∀ (aggs : List AggResultEntry) (i : Nat), i + aggs.length ≤ calls.length →
    ∃ l, processResultsGo dec calls i aggs = Except.ok l
      ∧ l.length = aggs.length
      ∧ ∀ j a, aggs[j]? = some a → ∃ c, calls[i + j]? = some c
          ∧ l[j]? = some (processOne dec (i + j) a c) := by
  intro aggs
  induction aggs with
  | nil =>
    intro i h
    refine ⟨[], rfl, rfl, ?_⟩
    intro j a hj
    simp at hj
  | cons a rest ih =>
    intro i h
    have hc : i < calls.length := by
      simp only [List.length_cons] at h
      omega
    have hcg : calls[i]? = some (calls.get ⟨i, hc⟩) := List.getElem?_eq_getElem hc
    obtain ⟨l, hl, hlen, hspec⟩ := ih (i + 1) (by
      simp only [List.length_cons] at h
      omega)
    refine ⟨processOne dec i a (calls.get ⟨i, hc⟩) :: l, ?_, by simp [hlen], ?_⟩
    · show processResultsGo dec calls i (a :: rest) = _
      unfold processResultsGo
      rw [hcg, hl]
    · intro j b hj
      cases j with
      | zero =>
        refine ⟨calls.get ⟨i, hc⟩, by simp only [Nat.add_zero]; exact hcg, ?_⟩
        simp only [List.getElem?_cons_zero, Option.some.injEq] at hj
        subst hj
        simp
      | succ k =>
        simp only [List.getElem?_cons_succ] at hj
        obtain ⟨c2, hc2, hl2⟩ := hspec k b hj
        have heq : i + (k + 1) = i + 1 + k := by omega
        rw [heq]
        exact ⟨c2, hc2, by simpa using hl2⟩

theorem processResults_ok (dec : DecodeOracle) (calls : List Call)
    (aggs : List AggResultEntry) (hlen : aggs.length = calls.length) :
    ∃ l, processResults dec calls aggs = Except.ok l
      ∧ l.length = aggs.length
      ∧ ∀ j a, aggs[j]? = some a → ∃ c, calls[j]? = some c
          ∧ l[j]? = some (processOne dec j a c) := by
  obtain ⟨l, hl, h2, h3⟩ := processResultsGo_ok dec calls aggs 0 (by omega)
  refine ⟨l, hl, h2, ?_⟩
  intro j a hj
  obtain ⟨c, hc, hgot⟩ := h3 j a hj
  rw [Nat.zero_add] at hc hgot
  exact ⟨c, hc, hgot⟩

theorem makeMulticall_guard_false {rpcUrl multicallAddress : String} {calls : List Call}
    (hr : rpcUrl ≠ "") (ha : multicallAddress ≠ "") (hne : calls ≠ []) :
    (decide (rpcUrl = "") || decide (multicallAddress = "") || calls.isEmpty) = false := by
  rw [decide_eq_false hr, decide_eq_false ha, listIsEmpty_false hne]
  rfl

theorem makeMulticall_ok_of (node : NodeOracle) (dec : DecodeOracle)
    (enc : EncodeAggOracle) (rpcUrl multicallAddress : String)
    (calls : List Call) (aggs : List AggResultEntry)
    (hr : rpcUrl ≠ "") (ha : multicallAddress ≠ "") (hne : calls ≠ [])
    (hnode : node false (calls.map toFormatted) = Except.ok aggs)
    (hlen : aggs.length = calls.length) :
    ∃ resp, makeMulticall node dec enc rpcUrl multicallAddress calls = Except.ok resp
      ∧ resp.results.length = calls.length
      ∧ ∀ j a, aggs[j]? = some a → ∃ c, calls[j]? = some c
          ∧ resp.results[j]? = some (processOne dec j a c) := by
  obtain ⟨l, hl, h2, h3⟩ := processResults_ok dec calls aggs hlen
  refine ⟨{ results := l,
            aggregateCallData :=
              (match enc false (calls.map toFormatted) with
                | Except.ok s => s
                | Except.error m => "Error encoding aggregate call data: " ++ m),
            success := true,
            totalCalls := calls.length,
            successfulCalls := (l.filter (fun r => r.success)).length }, ?_, ?_, ?_⟩
  · unfold makeMulticall
    simp only [makeMulticall_guard_false hr ha hne, Bool.false_eq_true, if_false,
      hnode, hl]
  · show l.length = calls.length
    omega
  · exact h3

/-- C1: for a batch of N calls whose aggregator answers with N results,
makeMulticall returns a results array of length N whose entry i carries
callIndex i, the target and the methodName of input call i (methodName
verbatim whenever call i declares a nonempty one), and the success flag
and raw bytes of the aggregator result at the same position: nothing is
dropped and the order is never permuted. -/
theorem c1_multicall_positional (node : NodeOracle) (dec : DecodeOracle)
    (enc : EncodeAggOracle) (rpcUrl multicallAddress : String)
    (calls : List Call) (aggs : List AggResultEntry)
    (hr : rpcUrl ≠ "") (ha : multicallAddress ≠ "") (hne : calls ≠ [])
    (hnode : node false (calls.map toFormatted) = Except.ok aggs)
    (hlen : aggs.length = calls.length) :
    ∃ resp, makeMulticall node dec enc rpcUrl multicallAddress calls = Except.ok resp
      ∧ resp.results.length = calls.length
      ∧ ∀ i, i < calls.length →
          ∃ pr c a, resp.results[i]? = some pr ∧ calls[i]? = some c ∧ aggs[i]? = some a
            ∧ pr.callIndex = i
            ∧ pr.target = c.target
            ∧ (∀ m, c.methodName = some m → m ≠ "" → pr.methodName = m)
            ∧ pr.success = a.success
            ∧ pr.rawData = a.returnData := by
  obtain ⟨resp, hresp, hlen2, hspec⟩ :=
    makeMulticall_ok_of node dec enc rpcUrl multicallAddress calls aggs
      hr ha hne hnode hlen
  refine ⟨resp, hresp, hlen2, ?_⟩
  intro i hi
  have hia : i < aggs.length := by omega
  have ha2 : aggs[i]? = some (aggs.get ⟨i, hia⟩) := List.getElem?_eq_getElem hia
  obtain ⟨c, hc2, hp2⟩ := hspec i (aggs.get ⟨i, hia⟩) ha2
  refine ⟨processOne dec i (aggs.get ⟨i, hia⟩) c, c, aggs.get ⟨i, hia⟩, hp2, hc2, ha2,
    rfl, rfl, ?_, rfl, rfl⟩
  intro m hm hmne
  show jsStrOr c.methodName "unknown" = m
  rw [hm]
  show (if m = "" then "unknown" else m) = m
  rw [if_neg hmne]

/-- C2: makeMulticall always submits the aggregate with requireSuccess
false (its outcome depends on the node only through the false query);
when the node answers, individual reverted calls never make the batch
throw: the batch returns ok with every entry present, a reverted entry
carrying success false, its raw bytes, and the call failed message;
only a transport failure of the whole batch produces an error, wrapped
in the Multicall failed message. -/
theorem c2_multicall_never_throws_on_revert (node : NodeOracle) (dec : DecodeOracle)
    (enc : EncodeAggOracle) (rpcUrl multicallAddress : String) (calls : List Call)
    (hr : rpcUrl ≠ "") (ha : multicallAddress ≠ "") (hne : calls ≠ []) :
    (∀ node₂ : NodeOracle,
        node false (calls.map toFormatted) = node₂ false (calls.map toFormatted) →
        makeMulticall node dec enc rpcUrl multicallAddress calls
          = makeMulticall node₂ dec enc rpcUrl multicallAddress calls)
    ∧ (∀ aggs, node false (calls.map toFormatted) = Except.ok aggs →
        aggs.length = calls.length →
        ∃ resp, makeMulticall node dec enc rpcUrl multicallAddress calls = Except.ok resp
          ∧ resp.results.length = calls.length
          ∧ ∀ (i : Nat) (a : AggResultEntry), aggs[i]? = some a → a.success = false →
              ∃ pr : ProcessedResult, resp.results[i]? = some pr ∧ pr.success = false
                ∧ pr.rawData = a.returnData
                ∧ pr.result = "Call failed (Raw: " ++ a.returnData ++ ")")
    ∧ (∀ msg, node false (calls.map toFormatted) = Except.error msg →
        makeMulticall node dec enc rpcUrl multicallAddress calls
          = Except.error ("Multicall failed: " ++ msg)) := by
  refine ⟨?_, ?_, ?_⟩
  · intro node₂ hsame
    unfold makeMulticall
    simp only []
    rw [hsame]
  · intro aggs hnode hlen
    obtain ⟨resp, hresp, hlen2, hspec⟩ :=
      makeMulticall_ok_of node dec enc rpcUrl multicallAddress calls aggs
        hr ha hne hnode hlen
    refine ⟨resp, hresp, hlen2, ?_⟩
    intro i a ha2 hfail
    obtain ⟨c, hc2, hp2⟩ := hspec i a ha2
    refine ⟨processOne dec i a c, hp2, hfail, rfl, ?_⟩
    show (processOne dec i a c).result = _
    unfold processOne
    rw [hfail]
    simp
  · intro msg herr
    unfold makeMulticall
    simp only [makeMulticall_guard_false hr ha hne, Bool.false_eq_true, if_false, herr]

/-- C5: a batch entry whose aggregator result succeeded but whose bytes
the ABI coder rejects is delivered as a failed DecodedValue: the whole
batch still returns ok, the entry is present at its position, its
result is the decode error message carrying the thrown reason together
with the original raw bytes, and the raw bytes are preserved in
rawData; the decode exception is never propagated. -/
theorem c5_decode_error_entry (node : NodeOracle) (dec : DecodeOracle)
    (enc : EncodeAggOracle) (rpcUrl multicallAddress : String)
    (calls : List Call) (aggs : List AggResultEntry)
    (hr : rpcUrl ≠ "") (ha : multicallAddress ≠ "") (hne : calls ≠ [])
    (hnode : node false (calls.map toFormatted) = Except.ok aggs)
    (hlen : aggs.length = calls.length)
    (i : Nat) (c : Call) (a : AggResultEntry)
    (hci : calls[i]? = some c) (hai : aggs[i]? = some a)
    (hsucc : a.success = true) (hrd : a.returnData ≠ "")
    (abi : List AbiItem) (m : String)
    (habi : c.abi = some abi) (hm : c.methodName = some m) (hmne : m ≠ "")
    (method : AbiItem) (outs : List AbiParam)
    (hfind : findMethod abi m = some method) (houts : method.outputs = some outs)
    (houtne : outs ≠ [])
    (msg : String)
    (hdec : dec (outs.map AbiParam.ty) a.returnData = Except.error msg) :
    ∃ resp pr, makeMulticall node dec enc rpcUrl multicallAddress calls = Except.ok resp
      ∧ resp.results[i]? = some pr
      ∧ pr.result = "Decode error: " ++ msg ++ " (Raw: " ++ a.returnData ++ ")"
      ∧ pr.rawData = a.returnData
      ∧ pr.success = true := by
  obtain ⟨resp, hresp, hlen2, hspec⟩ :=
    makeMulticall_ok_of node dec enc rpcUrl multicallAddress calls aggs
      hr ha hne hnode hlen
  obtain ⟨c2, hc2, hp2⟩ := hspec i a hai
  have hcc : c2 = c := by
    rw [hci] at hc2
    exact (Option.some.injEq _ _ ▸ hc2).symm
  subst hcc
  refine ⟨resp, processOne dec i a c2, hresp, hp2, ?_, rfl, hsucc⟩
  show (processOne dec i a c2).result = _
  unfold processOne
  have hrdb : (a.returnData != "") = true := bne_iff_ne.mpr hrd
  have hmt : jsTruthyOptStr c2.methodName = true := by
    rw [hm]
    simp [jsTruthyOptStr, hmne]
  have houtlen : outs.length > 0 := List.length_pos.mpr houtne
  simp only [hsucc, habi, hm, hrdb, hmt, Option.isSome_some, Bool.true_and,
    Bool.and_true, Bool.and_self, Option.getD_some, if_true]
  rw [hfind]
  simp only []
  rw [houts]
  simp only []
  rw [if_pos houtlen, hdec]
  have hmt2 : jsTruthyOptStr (some m) = true := by
    simp [jsTruthyOptStr, hmne]
  rw [hmt2, if_pos rfl]

/-! ### The result value of a successfully decoded entry -/

def c8Call : Call :=
  { target := "0x1111111111111111111111111111111111111111",
    callData := "0x70a08231",
    abi := some erc20Abi,
    methodName := some "balanceOf" }

def c8Agg : AggResultEntry :=
  { success := true,
    returnData := "0x0000000000000000000000000000000000000000000000000000000000000005" }

/-- A decode oracle behaving as the ABI coder does on this payload: a
single uint256 word decodes to the value five. -/
def c8Dec : DecodeOracle := fun tys rd =>
  if tys = ["uint256"] ∧ rd = c8Agg.returnData then Except.ok [JsPrim.pbig 5]
  else Except.error "unexpected payload"

/-- C8 counterexample: balanceOf declares a single return, yet the
entry result produced by the batch engine is the serialised one element
tuple, not the scalar drawn from position zero: formatResult of the
decoded array is the indented JSON text bracketing the quoted five,
which differs from the scalar rendering five. -/
theorem c8_single_return_not_scalar :
    (processOne c8Dec 0 c8Agg c8Call).result = "[\n  \"5\"\n]"
    ∧ formatResult (JsVal.prim (JsPrim.pbig 5)) = "5"
    ∧ (processOne c8Dec 0 c8Agg c8Call).result
        ≠ formatResult (JsVal.prim (JsPrim.pbig 5)) :=
  ⟨by decide, by decide, by decide⟩

/-- C8 amended: for every successfully decoded entry the result value
is formatResult applied to the whole decoded output tuple, for single
and multiple returns alike; the scalar at position zero is only
extracted downstream (formatTokenBalance takes the first element of an
array, so a digit string scalar wrapped in a one element array formats
as the scalar itself would). -/
theorem c8_decoded_tuple (dec : DecodeOracle) (i : Nat) (item : AggResultEntry)
    (c : Call) (abi : List AbiItem) (m : String) (method : AbiItem)
    (outs : List AbiParam) (vs : List JsPrim)
    (hs : item.success = true) (hrd : item.returnData ≠ "")
    (habi : c.abi = some abi) (hm : c.methodName = some m) (hmne : m ≠ "")
    (hfind : findMethod abi m = some method) (houts : method.outputs = some outs)
    (houtne : outs ≠ [])
    (hdec : dec (outs.map AbiParam.ty) item.returnData = Except.ok vs) :
    (processOne dec i item c).result = formatResult (JsVal.varr vs)
    ∧ ∀ (s : String) (rest : List JsPrim) (d : Nat),
        allDigitsL s.data = true → s ≠ "" →
        formatTokenBalance none (JsVal.varr (JsPrim.pstr s :: rest)) d
          = formatTokenBalance none (JsVal.prim (JsPrim.pstr s)) d := by
  constructor
  · show (processOne dec i item c).result = _
    unfold processOne
    have hrdb : (item.returnData != "") = true := bne_iff_ne.mpr hrd
    have houtlen : outs.length > 0 := List.length_pos.mpr houtne
    simp only [hs, habi, hm, hrdb, Option.isSome_some, Bool.true_and,
      Bool.and_true, Bool.and_self, Option.getD_some, if_true]
    rw [hfind]
    simp only []
    rw [houts]
    simp only []
    rw [if_pos houtlen, hdec]
    have hmt2 : jsTruthyOptStr (some m) = true := by
      simp [jsTruthyOptStr, hmne]
    rw [hmt2, if_pos rfl]
  · intro s rest d hdig hne
    by_cases hz : s = "0"
    · subst hz
      rfl
    · have hdata : s.data ≠ [] := data_ne_nil_of_ne_empty hne
      rw [formatTokenBalance_digits hdig hne hz d]
      -- the array path reaches the same BigInt formatting of the head
      have e2 : (JsVal.varr (JsPrim.pstr s :: rest) == JsVal.prim (JsPrim.pstr "0"))
          = false := by
        apply beq_eq_false_iff_ne.mpr
        simp
      have h3 : stripQuotesWs s = s := stripQuotesWs_digits hdig
      have h4 : startsWithCh s '[' = false := startsWith_digits_not_lbracket hdig hdata
      have h5 : parseBigInt? s = some (listVal s.data) := by
        unfold parseBigInt?
        rw [isEmpty_false_of_ne_nil hdata, hdig]
        simp
      have hbody : formatTokenBalanceBody none (JsVal.varr (JsPrim.pstr s :: rest)) d
          = Except.ok (bigIntFormat (listVal s.data) d) := by
        unfold formatTokenBalanceBody
        simp only [jsFalsy, jsPrimToString, e2, h3, h4,
          Bool.false_and, Bool.or_self, Bool.false_or, Bool.false_eq_true, if_false,
          hne, hz, decide_False, decide_eq_true_eq]
        rw [h5]
      unfold formatTokenBalance
      rw [hbody]

/-- C10: parseTokenData reports decimals 18 whenever no detail
platforms entry matches the requested address case insensitively, and
also whenever the matching entry has an absent or zero decimal_place
(a true decimal_place of zero is thus reported as 18); a missing USD
price is reported as the number 0 rather than left absent. -/
theorem c10_parse_token_defaults (data : ApiData) (contractAddress : String) :
    (findPlatform data contractAddress = none →
      (parseTokenData data contractAddress).decimals = 18)
    ∧ (∀ (k : String) (pd : PlatformEntry),
        findPlatform data contractAddress = some (k, pd) →
        (pd.decimal_place = none ∨ pd.decimal_place = some 0) →
        (parseTokenData data contractAddress).decimals = 18)
    ∧ (data.market_usd = none → (parseTokenData data contractAddress).price = 0) := by
  refine ⟨?_, ?_, ?_⟩
  · intro hf
    unfold parseTokenData
    simp only [hf]
  · intro k pd hf hdp
    unfold parseTokenData
    simp only [hf]
    by_cases hk : k = ""
    · simp [hk]
    · rcases hdp with h0 | h0 <;> simp [hk, h0]
  · intro hp
    unfold parseTokenData
    simp only [hp, Option.getD_none]

/-! ### Lemmas: traces of the metadata queue -/

theorem drainLoop_time_mono (oracle : FetchOracle) :
    ∀ (fuel : Nat) (st : QueueState) (ev : QueueEvent),
    ev ∈ (drainLoop oracle fuel st).2 → st.now ≤ ev.atTime := by
  intro fuel
  induction fuel with
  | zero =>
    intro st ev h
    simp [drainLoop] at h
  | succ f ih =>
    intro st ev h
    rcases hq : st.apiQueue with _ | ⟨e, rest⟩
    · simp only [drainLoop, hq, List.not_mem_nil] at h
    · rcases hc : cacheLookup st.cache (cacheKey e) with _ | v
      · rcases hp : platformFor e.chainId with _ | pid
        · simp only [drainLoop, hq, hc, hp, List.mem_cons] at h
          rcases h with he | he
          · subst he
            exact le_refl _
          · have h2 := ih _ ev he
            exact h2
        · cases ho : oracle st.fetchCount with
          | status429 =>
            simp only [drainLoop, hq, hc, hp, ho, List.mem_cons] at h
            rcases h with he | he
            · subst he
              exact le_refl _
            · have h2 := ih _ ev he
              simp only [] at h2
              omega
          | okJson d =>
            simp only [drainLoop, hq, hc, hp, ho, List.mem_cons] at h
            rcases h with he | he | he
            · subst he
              exact le_refl _
            · subst he
              exact le_refl _
            · have h2 := ih _ ev he
              simp only [] at h2
              omega
          | okBadJson =>
            simp only [drainLoop, hq, hc, hp, ho, List.mem_cons] at h
            rcases h with he | he | he
            · subst he
              exact le_refl _
            · subst he
              exact le_refl _
            · have h2 := ih _ ev he
              simp only [] at h2
              omega
          | httpError =>
            simp only [drainLoop, hq, hc, hp, ho, List.mem_cons] at h
            rcases h with he | he | he
            · subst he
              exact le_refl _
            · subst he
              exact le_refl _
            · have h2 := ih _ ev he
              simp only [] at h2
              omega
          | networkError =>
            simp only [drainLoop, hq, hc, hp, ho, List.mem_cons] at h
            rcases h with he | he | he
            · subst he
              exact le_refl _
            · subst he
              exact le_refl _
            · have h2 := ih _ ev he
              simp only [] at h2
              omega
      · simp only [drainLoop, hq, hc, List.mem_cons] at h
        rcases h with he | he
        · subst he
          exact le_refl _
        · have h2 := ih _ ev he
          exact h2

theorem drainLoop_no_reject (oracle : FetchOracle) :
    ∀ (fuel : Nat) (st : QueueState) (k : String) (t : Nat),
    QueueEvent.rejectedEv k t ∉ (drainLoop oracle fuel st).2 := by
  intro fuel
  induction fuel with
  | zero =>
    intro st k t h
    simp [drainLoop] at h
  | succ f ih =>
    intro st k t h
    rcases hq : st.apiQueue with _ | ⟨e, rest⟩
    · simp only [drainLoop, hq, List.not_mem_nil] at h
    · rcases hc : cacheLookup st.cache (cacheKey e) with _ | v
      · rcases hp : platformFor e.chainId with _ | pid
        · simp only [drainLoop, hq, hc, hp, List.mem_cons] at h
          rcases h with he | he
          · exact QueueEvent.noConfusion he
          · exact ih _ k t he
        · cases ho : oracle st.fetchCount with
          | status429 =>
            simp only [drainLoop, hq, hc, hp, ho, List.mem_cons] at h
            rcases h with he | he
            · exact QueueEvent.noConfusion he
            · exact ih _ k t he
          | okJson d =>
            simp only [drainLoop, hq, hc, hp, ho, List.mem_cons] at h
            rcases h with he | he | he
            · exact QueueEvent.noConfusion he
            · exact QueueEvent.noConfusion he
            · exact ih _ k t he
          | okBadJson =>
            simp only [drainLoop, hq, hc, hp, ho, List.mem_cons] at h
            rcases h with he | he | he
            · exact QueueEvent.noConfusion he
            · exact QueueEvent.noConfusion he
            · exact ih _ k t he
          | httpError =>
            simp only [drainLoop, hq, hc, hp, ho, List.mem_cons] at h
            rcases h with he | he | he
            · exact QueueEvent.noConfusion he
            · exact QueueEvent.noConfusion he
            · exact ih _ k t he
          | networkError =>
            simp only [drainLoop, hq, hc, hp, ho, List.mem_cons] at h
            rcases h with he | he | he
            · exact QueueEvent.noConfusion he
            · exact QueueEvent.noConfusion he
            · exact ih _ k t he
      · simp only [drainLoop, hq, hc, List.mem_cons] at h
        rcases h with he | he
        · exact QueueEvent.noConfusion he
        · exact ih _ k t he

/-- While the front entry is uncached and mapped, every event that is
not preceded by a resolution of its key concerns that key: it is either
a fetch of the key or its resolution. -/
theorem drainLoop_front_blocked (oracle : FetchOracle) (e : QueueItem)
    (rest : List QueueItem) :
    ∀ (fuel : Nat) (st : QueueState),
    st.apiQueue = e :: rest →
    cacheLookup st.cache (cacheKey e) = none →
    (platformFor e.chainId).isSome = true →
    ∀ (i : Nat) (ev : QueueEvent), ((drainLoop oracle fuel st).2)[i]? = some ev →
    (∀ j, j < i → ∀ (v : Option TokenInfo) (t : Nat),
      ((drainLoop oracle fuel st).2)[j]?
        ≠ some (QueueEvent.resolvedEv (cacheKey e) v t)) →
    (∃ t, ev = QueueEvent.fetched (cacheKey e) t)
      ∨ (∃ v t, ev = QueueEvent.resolvedEv (cacheKey e) v t) := by
  intro fuel
  induction fuel with
  | zero =>
    intro st hq hc hp i ev hi hblock
    simp [drainLoop] at hi
  | succ f ih =>
    intro st hq hc hp i ev hi hblock
    obtain ⟨pid, hp2⟩ := Option.isSome_iff_exists.mp hp
    cases ho : oracle st.fetchCount with
    | status429 =>
      simp only [drainLoop, hq, hc, hp2, ho] at hi hblock
      cases i with
      | zero =>
        simp only [List.getElem?_cons_zero, Option.some.injEq] at hi
        exact Or.inl ⟨st.now, hi.symm⟩
      | succ i2 =>
        simp only [List.getElem?_cons_succ] at hi
        refine ih { st with
                    apiQueue := e :: rest,
                    fetchCount := st.fetchCount + 1,
                    now := st.now + retryDelay } rfl hc hp i2 ev hi ?_
        intro j hj v t
        have := hblock (j + 1) (by omega) v t
        simpa using this
    | okJson d =>
      simp only [drainLoop, hq, hc, hp2, ho] at hi hblock
      cases i with
      | zero =>
        simp only [List.getElem?_cons_zero, Option.some.injEq] at hi
        exact Or.inl ⟨st.now, hi.symm⟩
      | succ i2 =>
        cases i2 with
        | zero =>
          simp only [List.getElem?_cons_succ, List.getElem?_cons_zero,
            Option.some.injEq] at hi
          exact Or.inr ⟨some (parseTokenData d e.contractAddress), st.now, hi.symm⟩
        | succ i3 =>
          exfalso
          have hb := hblock 1 (by omega) (some (parseTokenData d e.contractAddress)) st.now
          simp only [List.getElem?_cons_succ, List.getElem?_cons_zero] at hb
          exact hb rfl
    | okBadJson =>
      simp only [drainLoop, hq, hc, hp2, ho] at hi hblock
      cases i with
      | zero =>
        simp only [List.getElem?_cons_zero, Option.some.injEq] at hi
        exact Or.inl ⟨st.now, hi.symm⟩
      | succ i2 =>
        cases i2 with
        | zero =>
          simp only [List.getElem?_cons_succ, List.getElem?_cons_zero,
            Option.some.injEq] at hi
          exact Or.inr ⟨none, st.now, hi.symm⟩
        | succ i3 =>
          exfalso
          have hb := hblock 1 (by omega) none st.now
          simp only [List.getElem?_cons_succ, List.getElem?_cons_zero] at hb
          exact hb rfl
    | httpError =>
      simp only [drainLoop, hq, hc, hp2, ho] at hi hblock
      cases i with
      | zero =>
        simp only [List.getElem?_cons_zero, Option.some.injEq] at hi
        exact Or.inl ⟨st.now, hi.symm⟩
      | succ i2 =>
        cases i2 with
        | zero =>
          simp only [List.getElem?_cons_succ, List.getElem?_cons_zero,
            Option.some.injEq] at hi
          exact Or.inr ⟨none, st.now, hi.symm⟩
        | succ i3 =>
          exfalso
          have hb := hblock 1 (by omega) none st.now
          simp only [List.getElem?_cons_succ, List.getElem?_cons_zero] at hb
          exact hb rfl
    | networkError =>
      simp only [drainLoop, hq, hc, hp2, ho] at hi hblock
      cases i with
      | zero =>
        simp only [List.getElem?_cons_zero, Option.some.injEq] at hi
        exact Or.inl ⟨st.now, hi.symm⟩
      | succ i2 =>
        cases i2 with
        | zero =>
          simp only [List.getElem?_cons_succ, List.getElem?_cons_zero,
            Option.some.injEq] at hi
          exact Or.inr ⟨none, st.now, hi.symm⟩
        | succ i3 =>
          exfalso
          have hb := hblock 1 (by omega) none st.now
          simp only [List.getElem?_cons_succ, List.getElem?_cons_zero] at hb
          exact hb rfl

/-- C6: a 429 on the front entry of the metadata queue puts that same
entry back at the front (first conjunct: the next state carries the
identical queue with the entry first, the clock advanced by the whole
queue pause retryDelay, the cache untouched, and the iteration emits
only the fetch attempt, no resolution); consequently no other key is
ever fetched before the front key resolves (second conjunct), and any
resolution of the front key happens no earlier than one backoff
interval after the throttled attempt (third conjunct). -/
theorem c6_throttle_front_requeue (oracle : FetchOracle) (fuel : Nat)
    (st : QueueState) (e : QueueItem) (rest : List QueueItem)
    (hq : st.apiQueue = e :: rest)
    (hc : cacheLookup st.cache (cacheKey e) = none)
    (hp : (platformFor e.chainId).isSome = true)
    (h429 : oracle st.fetchCount = FetchOutcome.status429) :
    (drainLoop oracle (fuel + 1) st
      = ((drainLoop oracle fuel { st with
            apiQueue := e :: rest,
            fetchCount := st.fetchCount + 1,
            now := st.now + retryDelay }).1,
         QueueEvent.fetched (cacheKey e) st.now ::
           (drainLoop oracle fuel { st with
             apiQueue := e :: rest,
             fetchCount := st.fetchCount + 1,
             now := st.now + retryDelay }).2))
    ∧ (∀ (i : Nat) (k : String) (t : Nat),
        ((drainLoop oracle (fuel + 1) st).2)[i]? = some (QueueEvent.fetched k t) →
        k ≠ cacheKey e →
        ∃ j, j < i ∧ ∃ (v : Option TokenInfo) (t2 : Nat),
          ((drainLoop oracle (fuel + 1) st).2)[j]?
            = some (QueueEvent.resolvedEv (cacheKey e) v t2))
    ∧ (∀ (i : Nat) (v : Option TokenInfo) (t : Nat),
        ((drainLoop oracle (fuel + 1) st).2)[i]?
          = some (QueueEvent.resolvedEv (cacheKey e) v t) →
        st.now + retryDelay ≤ t) := by
  obtain ⟨pid, hp2⟩ := Option.isSome_iff_exists.mp hp
  have hstep : drainLoop oracle (fuel + 1) st
      = ((drainLoop oracle fuel { st with
            apiQueue := e :: rest,
            fetchCount := st.fetchCount + 1,
            now := st.now + retryDelay }).1,
         QueueEvent.fetched (cacheKey e) st.now ::
           (drainLoop oracle fuel { st with
             apiQueue := e :: rest,
             fetchCount := st.fetchCount + 1,
             now := st.now + retryDelay }).2) := by
    simp only [drainLoop, hq, hc, hp2, h429]
  refine ⟨hstep, ?_, ?_⟩
  · intro i k t hi hk
    by_contra hno
    push_neg at hno
    have hcls := drainLoop_front_blocked oracle e rest (fuel + 1) st hq hc hp i
      (QueueEvent.fetched k t) hi (by
        intro j hj v t2
        exact hno j hj v t2)
    rcases hcls with ⟨t3, he⟩ | ⟨v, t3, he⟩
    · injection he with h1 h2
      exact hk h1
    · exact QueueEvent.noConfusion he
  · intro i v t hi
    rw [hstep] at hi
    cases i with
    | zero =>
      simp only [List.getElem?_cons_zero, Option.some.injEq] at hi
      exact QueueEvent.noConfusion hi
    | succ i2 =>
      simp only [List.getElem?_cons_succ] at hi
      have hmem := List.getElem?_mem hi
      have hmono := drainLoop_time_mono oracle fuel _ _ hmem
      simp only [QueueEvent.atTime] at hmono
      exact hmono

/-- C7: a dequeued request that neither succeeds nor is throttled
resolves with null and caches a permanent null under the key built
from the chain id, a dash, and the lowercased address.  First conjunct:
an unmapped chain does so without any network request (the fetch count
and the clock are untouched and no fetched event is emitted).  Second
conjunct: a non 2xx non 429 status, a network error, or a body parse
error each fetch once and then cache null and resolve null.  Third
conjunct: the queue never rejects. -/
theorem c7_failure_caches_null (oracle : FetchOracle) (fuel : Nat)
    (st : QueueState) (e : QueueItem) (rest : List QueueItem)
    (hq : st.apiQueue = e :: rest)
    (hc : cacheLookup st.cache (cacheKey e) = none) :
    (platformFor e.chainId = none →
      drainLoop oracle (fuel + 1) st
        = ((drainLoop oracle fuel { st with
              apiQueue := rest,
              cache := (cacheKey e, none) :: st.cache }).1,
           QueueEvent.resolvedEv (cacheKey e) none st.now ::
             (drainLoop oracle fuel { st with
               apiQueue := rest,
               cache := (cacheKey e, none) :: st.cache }).2))
    ∧ (∀ pid, platformFor e.chainId = some pid →
        (oracle st.fetchCount = FetchOutcome.httpError
          ∨ oracle st.fetchCount = FetchOutcome.networkError
          ∨ oracle st.fetchCount = FetchOutcome.okBadJson) →
        drainLoop oracle (fuel + 1) st
          = ((drainLoop oracle fuel { st with
                apiQueue := rest,
                cache := (cacheKey e, none) :: st.cache,
                fetchCount := st.fetchCount + 1,
                now := st.now + rateLimitDelay }).1,
             QueueEvent.fetched (cacheKey e) st.now ::
               QueueEvent.resolvedEv (cacheKey e) none st.now ::
               (drainLoop oracle fuel { st with
                 apiQueue := rest,
                 cache := (cacheKey e, none) :: st.cache,
                 fetchCount := st.fetchCount + 1,
                 now := st.now + rateLimitDelay }).2))
    ∧ (∀ (i : Nat) (k : String) (t : Nat),
        ((drainLoop oracle (fuel + 1) st).2)[i]?
          ≠ some (QueueEvent.rejectedEv k t)) := by
  refine ⟨?_, ?_, ?_⟩
  · intro hpnone
    simp only [drainLoop, hq, hc, hpnone]
  · intro pid hpid ho
    rcases ho with ho | ho | ho <;> simp only [drainLoop, hq, hc, hpid, ho]
  · intro i k t hcontra
    have hmem := List.getElem?_mem hcontra
    exact drainLoop_no_reject oracle (fuel + 1) st k t hmem

/-! ### Concrete fixtures and witnesses -/

def wCall1 : Call :=
  { target := "0x1000000000000000000000000000000000000001",
    callData := "0x06fdde03",
    abi := some erc20Abi,
    methodName := some "name" }

def wCall2 : Call :=
  { target := "0x2000000000000000000000000000000000000002",
    callData := "0x70a08231",
    abi := some erc20Abi,
    methodName := some "balanceOf" }

def wAgg1 : AggResultEntry := { success := true, returnData := "0xabcd" }

def wAgg2 : AggResultEntry := { success := false, returnData := "0x" }

def wNode : NodeOracle := fun _ _ => Except.ok [wAgg1, wAgg2]

def wDec : DecodeOracle := fun _ _ => Except.error "could not decode result data"

def wEnc : EncodeAggOracle := fun _ _ => Except.ok "0xagg"

theorem c1_witness :
    ∃ resp, makeMulticall wNode wDec wEnc "https://rpc" "0xmc" [wCall1, wCall2]
        = Except.ok resp
      ∧ resp.results.length = [wCall1, wCall2].length
      ∧ ∀ i, i < [wCall1, wCall2].length →
          ∃ pr c a, resp.results[i]? = some pr ∧ [wCall1, wCall2][i]? = some c
            ∧ [wAgg1, wAgg2][i]? = some a
            ∧ pr.callIndex = i
            ∧ pr.target = c.target
            ∧ (∀ m, c.methodName = some m → m ≠ "" → pr.methodName = m)
            ∧ pr.success = a.success
            ∧ pr.rawData = a.returnData :=
  c1_multicall_positional wNode wDec wEnc "https://rpc" "0xmc" [wCall1, wCall2]
    [wAgg1, wAgg2] (by decide) (by decide) (by decide) rfl (by decide)

theorem c2_witness :
    (∀ node₂ : NodeOracle,
        wNode false ([wCall1, wCall2].map toFormatted)
          = node₂ false ([wCall1, wCall2].map toFormatted) →
        makeMulticall wNode wDec wEnc "https://rpc" "0xmc" [wCall1, wCall2]
          = makeMulticall node₂ wDec wEnc "https://rpc" "0xmc" [wCall1, wCall2])
    ∧ (∀ aggs, wNode false ([wCall1, wCall2].map toFormatted) = Except.ok aggs →
        aggs.length = [wCall1, wCall2].length →
        ∃ resp, makeMulticall wNode wDec wEnc "https://rpc" "0xmc" [wCall1, wCall2]
            = Except.ok resp
          ∧ resp.results.length = [wCall1, wCall2].length
          ∧ ∀ (i : Nat) (a : AggResultEntry), aggs[i]? = some a → a.success = false →
              ∃ pr : ProcessedResult, resp.results[i]? = some pr ∧ pr.success = false
                ∧ pr.rawData = a.returnData
                ∧ pr.result = "Call failed (Raw: " ++ a.returnData ++ ")")
    ∧ (∀ msg, wNode false ([wCall1, wCall2].map toFormatted) = Except.error msg →
        makeMulticall wNode wDec wEnc "https://rpc" "0xmc" [wCall1, wCall2]
          = Except.error ("Multicall failed: " ++ msg)) :=
  c2_multicall_never_throws_on_revert wNode wDec wEnc "https://rpc" "0xmc"
    [wCall1, wCall2] (by decide) (by decide) (by decide)

theorem c5_witness :
    ∃ resp pr, makeMulticall wNode wDec wEnc "https://rpc" "0xmc" [wCall1, wCall2]
        = Except.ok resp
      ∧ resp.results[0]? = some pr
      ∧ pr.result = "Decode error: " ++ "could not decode result data"
          ++ " (Raw: " ++ wAgg1.returnData ++ ")"
      ∧ pr.rawData = wAgg1.returnData
      ∧ pr.success = true :=
  c5_decode_error_entry wNode wDec wEnc "https://rpc" "0xmc" [wCall1, wCall2]
    [wAgg1, wAgg2] (by decide) (by decide) (by decide) rfl (by decide)
    0 wCall1 wAgg1 (by decide) (by decide) (by decide) (by decide)
    erc20Abi "name" (by decide) (by decide) (by decide)
    { itemType := "function", name := "name", inputs := [],
      outputs := some [{ name := "", ty := "string" }] }
    [{ name := "", ty := "string" }] (by decide) (by decide) (by decide)
    "could not decode result data" rfl

theorem c8_witness :
    (processOne c8Dec 0 c8Agg c8Call).result
        = formatResult (JsVal.varr [JsPrim.pbig 5])
    ∧ ∀ (s : String) (rest : List JsPrim) (d : Nat),
        allDigitsL s.data = true → s ≠ "" →
        formatTokenBalance none (JsVal.varr (JsPrim.pstr s :: rest)) d
          = formatTokenBalance none (JsVal.prim (JsPrim.pstr s)) d :=
  c8_decoded_tuple c8Dec 0 c8Agg c8Call erc20Abi "balanceOf"
    { itemType := "function", name := "balanceOf",
      inputs := [{ name := "_owner", ty := "address" }],
      outputs := some [{ name := "balance", ty := "uint256" }] }
    [{ name := "balance", ty := "uint256" }] [JsPrim.pbig 5]
    (by decide) (by decide) (by decide) (by decide) (by decide)
    (by decide) (by decide) (by decide) rfl

theorem c10_witness :
    let w10data : ApiData :=
      { name := "Tok", symbol := "tok", image_small := none, image_thumb := none,
        detail_platforms := some [("ethereum",
          { contract_address := some "0xAbC", decimal_place := some 0 })],
        market_usd := none }
    (parseTokenData w10data "0xabc").decimals = 18
    ∧ (parseTokenData w10data "0xabc").price = 0 := by
  intro w10data
  refine ⟨?_, ?_⟩
  · exact (c10_parse_token_defaults w10data "0xabc").2.1 "ethereum"
      { contract_address := some "0xAbC", decimal_place := some 0 }
      (by decide) (Or.inr rfl)
  · exact (c10_parse_token_defaults w10data "0xabc").2.2 rfl

def w6e1 : QueueItem := { contractAddress := "0xToken", chainId := "1" }

def w6e2 : QueueItem := { contractAddress := "0xOther", chainId := "1" }

def w6data : ApiData :=
  { name := "Tok", symbol := "tok", image_small := none, image_thumb := none,
    detail_platforms := none, market_usd := none }

def w6oracle : FetchOracle := fun i =>
  if i = 0 then FetchOutcome.status429 else FetchOutcome.okJson w6data

def w6st : QueueState :=
  { apiQueue := [w6e1, w6e2], cache := [], isProcessingQueue := true,
    fetchCount := 0, now := 0 }

theorem c6_witness :
    (drainLoop w6oracle (2 + 1) w6st
      = ((drainLoop w6oracle 2 { w6st with
            apiQueue := w6e1 :: [w6e2],
            fetchCount := w6st.fetchCount + 1,
            now := w6st.now + retryDelay }).1,
         QueueEvent.fetched (cacheKey w6e1) w6st.now ::
           (drainLoop w6oracle 2 { w6st with
             apiQueue := w6e1 :: [w6e2],
             fetchCount := w6st.fetchCount + 1,
             now := w6st.now + retryDelay }).2))
    ∧ (∀ (i : Nat) (k : String) (t : Nat),
        ((drainLoop w6oracle (2 + 1) w6st).2)[i]? = some (QueueEvent.fetched k t) →
        k ≠ cacheKey w6e1 →
        ∃ j, j < i ∧ ∃ (v : Option TokenInfo) (t2 : Nat),
          ((drainLoop w6oracle (2 + 1) w6st).2)[j]?
            = some (QueueEvent.resolvedEv (cacheKey w6e1) v t2))
    ∧ (∀ (i : Nat) (v : Option TokenInfo) (t : Nat),
        ((drainLoop w6oracle (2 + 1) w6st).2)[i]?
          = some (QueueEvent.resolvedEv (cacheKey w6e1) v t) →
        w6st.now + retryDelay ≤ t) :=
  c6_throttle_front_requeue w6oracle 2 w6st w6e1 [w6e2] rfl rfl (by decide) rfl

def w7e : QueueItem := { contractAddress := "0xTok", chainId := "1" }

def w7oracle : FetchOracle := fun _ => FetchOutcome.httpError

def w7st : QueueState :=
  { apiQueue := [w7e], cache := [], isProcessingQueue := true,
    fetchCount := 0, now := 0 }

theorem c7_witness :
    (platformFor w7e.chainId = none →
      drainLoop w7oracle (1 + 1) w7st
        = ((drainLoop w7oracle 1 { w7st with
              apiQueue := ([] : List QueueItem),
              cache := (cacheKey w7e, none) :: w7st.cache }).1,
           QueueEvent.resolvedEv (cacheKey w7e) none w7st.now ::
             (drainLoop w7oracle 1 { w7st with
               apiQueue := ([] : List QueueItem),
               cache := (cacheKey w7e, none) :: w7st.cache }).2))
    ∧ (∀ pid, platformFor w7e.chainId = some pid →
        (w7oracle w7st.fetchCount = FetchOutcome.httpError
          ∨ w7oracle w7st.fetchCount = FetchOutcome.networkError
          ∨ w7oracle w7st.fetchCount = FetchOutcome.okBadJson) →
        drainLoop w7oracle (1 + 1) w7st
          = ((drainLoop w7oracle 1 { w7st with
                apiQueue := ([] : List QueueItem),
                cache := (cacheKey w7e, none) :: w7st.cache,
                fetchCount := w7st.fetchCount + 1,
                now := w7st.now + rateLimitDelay }).1,
             QueueEvent.fetched (cacheKey w7e) w7st.now ::
               QueueEvent.resolvedEv (cacheKey w7e) none w7st.now ::
               (drainLoop w7oracle 1 { w7st with
                 apiQueue := ([] : List QueueItem),
                 cache := (cacheKey w7e, none) :: w7st.cache,
                 fetchCount := w7st.fetchCount + 1,
                 now := w7st.now + rateLimitDelay }).2))
    ∧ (∀ (i : Nat) (k : String) (t : Nat),
        ((drainLoop w7oracle (1 + 1) w7st).2)[i]?
          ≠ some (QueueEvent.rejectedEv k t)) :=
  c7_failure_caches_null w7oracle 1 w7st w7e [] rfl rfl
